import Mathlib

/-!
Verification development for the maro excerpt: the data-center dataset
pipeline (`src/maro/cli/data_pipeline/data_center.py`) and the PPO/GNN
trainer (`src/examples/citi_bike/ppo/algorithms/fixamt_ppo_att.py`).

Shallow embedding conventions: pandas tables become lists of records,
`pd.to_numeric(errors="coerce")` becomes an `Option`-valued coercion on a
cell type that records whether the cell was numeric, Python integer floor
division becomes `Int.fdiv`, and the external services (aria2 download
manager, torch networks and optimizers) are abstracted as function
parameters, exactly at the call boundary the source uses.
-/

namespace DataCenter

/-- A CSV cell of a column that the source feeds to
pandas `to_numeric` with coercion of errors: either a numeric value or a
non-numeric string (which pandas coerces to NaN). -/
inductive CsvVal where
  | num (n : ℤ)
  | nonNum (s : String)
deriving DecidableEq, Repr

/-- Embedding of pandas `to_numeric(col, errors=coerce)` on one cell: a
numeric cell keeps its value, a non-numeric cell becomes NaN (`none`). -/
def toNumeric : CsvVal → Option ℤ
  | .num n => some n
  | .nonNum _ => none

/-- One raw row of the downloaded VM table, with the fixed ordered column
schema `headers` of `_process_vm_table` (11 columns, no header row in the
file).  Columns outside the required subset are kept as opaque strings. -/
structure RawRow where
  vmid : String
  subscriptionid : String
  deploymentid : String
  vmcreated : CsvVal
  vmdeleted : CsvVal
  maxcpu : String
  avgcpu : String
  p95maxcpu : String
  vmcategory : String
  vmcorecountbucket : CsvVal
  vmmemorybucket : CsvVal
deriving DecidableEq, Repr

/-- A row after projection to `required_headers`, numeric coercion of the
four numeric columns, and integer floor division of the two timestamp
columns by 300 (the state of the dataframe after line 136 of the source,
before the horizon filter). -/
structure VmRow where
  vmid : String
  vmcreated : ℤ
  vmdeleted : ℤ
  vmcorecountbucket : ℤ
  vmmemorybucket : ℤ
deriving DecidableEq, Repr

/-- A retained output row, with the derived `lifetime` column appended. -/
structure CleanRow where
  vmid : String
  vmcreated : ℤ
  vmdeleted : ℤ
  vmcorecountbucket : ℤ
  vmmemorybucket : ℤ
  lifetime : ℤ
deriving DecidableEq, Repr

/-- Row-wise effect of lines 127-136 of the source: project to the required
columns, coerce `vmcreated` and `vmdeleted` and floor-divide them by 300,
coerce the two bucket columns, and return `none` when any coercion produced
NaN (such a row is removed by the subsequent `dropna`). -/
def coerceRow (r : RawRow) : Option VmRow :=
  match toNumeric r.vmcreated, toNumeric r.vmdeleted,
      toNumeric r.vmcorecountbucket, toNumeric r.vmmemorybucket with
  | some c, some d, some cb, some mb =>
      some { vmid := r.vmid, vmcreated := Int.fdiv c 300, vmdeleted := Int.fdiv d 300,
             vmcorecountbucket := cb, vmmemorybucket := mb }
  | _, _, _, _ => none

/-- Line 139 of the source: append the derived column
`lifetime = vmdeleted - vmcreated`. -/
def addLifetime (r : VmRow) : CleanRow :=
  { vmid := r.vmid, vmcreated := r.vmcreated, vmdeleted := r.vmdeleted,
    vmcorecountbucket := r.vmcorecountbucket, vmmemorybucket := r.vmmemorybucket,
    lifetime := r.vmdeleted - r.vmcreated }

/-- The sort key used by `sort_values(by=vmcreated, ascending=True)`. -/
def byVmcreated (a b : CleanRow) : Prop := a.vmcreated ≤ b.vmcreated

instance : DecidableRel byVmcreated := fun a b => Int.decLe a.vmcreated b.vmcreated

instance : IsTotal CleanRow byVmcreated := ⟨fun a b => Int.le_total a.vmcreated b.vmcreated⟩

instance : IsTrans CleanRow byVmcreated := ⟨fun _ _ _ h1 h2 => le_trans h1 h2⟩

/-- Embedding of `DataCenterPipeline._process_vm_table`: read the raw table,
project to the required columns, coerce the four numeric columns (bucketing
the two timestamps by 300), drop rows with a failed coercion, keep only rows
with `vmdeleted` at most 43, append `lifetime`, and sort ascending by
`vmcreated` (pandas `sort_values`; the embedding sorts with insertion sort,
since only the sortedness of the result is specified, not stability). -/
def process_vm_table (rows : List RawRow) : List CleanRow :=
  let projected := rows.filterMap coerceRow
  let kept := projected.filter (fun r => r.vmdeleted ≤ 43)
  let withLife := kept.map addLifetime
  List.insertionSort byVmcreated withLife

/-- Local path of the downloaded gz archive, `self._vm_table_file`. -/
def vm_table_file : String := "download/vmtable.csv.gz"

/-- Local path the archive is decompressed to inside `clean`. -/
def unzip_vm_table_file : String := "clean/vmtable.csv"

/-- Local path of the final cleaned table, `self._clean_file`. -/
def clean_file : String := "clean/vmtable.csv"

/-- Observable file-system effects of the clean phase. -/
inductive CleanAction where
  | superClean
  | unzipCopy (src dst : String)
  | warnMissing (path : String)
  | writeCleanTable (path : String) (table : List CleanRow)
deriving DecidableEq, Repr

/-- Embedding of `DataCenterPipeline.clean` as the sequence of file-system
effects it performs, as a function of whether the downloaded archive exists:
it calls the superclass clean, then either decompresses the archive with
`gzip.open` plus `copyfileobj`, or logs a warning when the archive is
missing.  The preprocessing step (`self._preprocess`) is never invoked by
`clean` in the source, so no `writeCleanTable` effect ever occurs. -/
def clean (vm_table_exists : Bool) : List CleanAction :=
  if vm_table_exists then
    [CleanAction.superClean, CleanAction.unzipCopy vm_table_file unzip_vm_table_file]
  else
    [CleanAction.superClean, CleanAction.warnMissing vm_table_file]

/-- Embedding of `DataCenterPipeline._preprocess` (present in the source but
unreachable from `clean`): process the table and write the result to the
clean-file path as a delimited text table with a header row. -/
def preprocess (rows : List RawRow) : List CleanAction :=
  [CleanAction.writeCleanTable clean_file (process_vm_table rows)]

/-- A file name, as the list of its characters (the last slash-separated
component of a URL). -/
abbrev FileName := List Char

/-- A remote URL, as its list of slash-separated components; the source
computes the file name by splitting the URL on slashes and taking the last
component. -/
abbrev Url := List FileName

/-- Prefix that marks both kinds of in-scope files. -/
def vmPref : List Char := ['v', 'm']

/-- Prefix that marks the partitioned cpu-reading files. -/
def readingsPref : List Char :=
  ['v', 'm', '_', 'c', 'p', 'u', '_', 'r', 'e', 'a', 'd', 'i', 'n', 'g', 's']

/-- The last slash-separated component of a URL. -/
def file_name_of (url : Url) : FileName := url.getLastD []

/-- Embedding of `DataCenterPipeline._aria2p_download`, as a function of the
manifest URL list, the force flag, and whether the local vm-table archive
already exists (the `os.path.exists` probe; downloads are asynchronous, so
the probe result is constant across the loop).  Returns the list of URLs
handed to `aria2.add_uris` and the final value of the local counter
`num_files`, which starts at 4 and is decremented once per cpu-readings
file.  Note the source only calls `add_uris` inside the branch it enters
when the file already exists and force is off; in the other branch it only
logs a download message. -/
def aria2p_download (urls : List Url) (is_force vm_table_exists : Bool) :
    List Url × ℤ :=
  urls.foldl
    (fun acc url =>
      let fn := file_name_of url
      if vmPref.isPrefixOf fn then
        let n1 : ℤ := if readingsPref.isPrefixOf fn then acc.2 - 1 else acc.2
        if (!is_force) && vm_table_exists then (acc.1 ++ [url], n1) else (acc.1, n1)
      else acc)
    ([], 4)

/-- One aria2 task-status record as seen through `get_downloads`. -/
structure Download where
  name : ℕ
  is_complete : Bool
deriving DecidableEq, Repr

/-- How the polling loop of `_check_all_download_completed` exits: either the
task list was empty, or every task reported complete and `aria2.remove` was
called on exactly those tasks.  Each result records the index of the poll at
which the loop exited and the total seconds slept before that poll. -/
inductive PollResult where
  | noPending (t slept : ℕ)
  | finished (removed : List Download) (t slept : ℕ)
deriving DecidableEq, Repr

/-- Poll index at which the loop exited. -/
def PollResult.exitTime : PollResult → ℕ
  | .noPending t _ => t
  | .finished _ t _ => t

/-- Total seconds slept before the exiting poll. -/
def PollResult.sleptTotal : PollResult → ℕ
  | .noPending _ s => s
  | .finished _ _ s => s

/-- Embedding of the `while 1` polling loop of
`DataCenterPipeline._check_all_download_completed`.  The download manager is
modelled as the function `polls` giving the task list returned by the t-th
call to `get_downloads`.  Each non-exiting iteration sleeps 5 seconds and
re-polls; `fuel` bounds the number of iterations we unroll (the source loop
is unbounded), with `none` meaning the loop was still running after `fuel`
polls. -/
def check_all_download_completed (polls : ℕ → List Download) :
    ℕ → ℕ → ℕ → Option PollResult
  | 0, _, _ => none
  | fuel + 1, t, slept =>
    let downloads := polls t
    if downloads.isEmpty then some (.noPending t slept)
    else if downloads.all (fun d => d.is_complete) then some (.finished downloads t slept)
    else check_all_download_completed polls fuel (t + 1) (slept + 5)

end DataCenter

namespace PPO

/-- The supplement dictionary returned by `act` and stored with a rollout
step: the attention row and the log-probability of the chosen actions
(`att_prob`), captured at collection time. -/
structure Supplement where
  choice_att : List (List ℚ)
  att_prob : List ℚ
deriving DecidableEq, Repr

/-- A 2 x n action matrix (the source comment gives the action shape as
`[2, action_cnt]`); `np.hstack` concatenates such matrices along the second
axis. -/
structure ActionMat where
  row0 : List ℤ
  row1 : List ℤ
deriving DecidableEq, Repr

/-- The per-step action field, which the source inspects with `isinstance`:
either a tuple whose first component is the action matrix, or the bare
matrix. -/
inductive ActionField where
  | paired (m : ActionMat) (rest : List ℚ)
  | flat (m : ActionMat)
deriving DecidableEq, Repr

/-- The action matrix carried by an action field; for a tuple this is its
first component (the source takes index 0 of the tuple). -/
def ActionField.mat : ActionField → ActionMat
  | .paired m _ => m
  | .flat m => m

/-- Concatenation of action matrices along the action axis, `np.hstack`. -/
def hstackA (l : List ActionMat) : ActionMat :=
  { row0 := (l.map (fun m => m.row0)).flatten, row1 := (l.map (fun m => m.row1)).flatten }

/-- One rollout step record, with the keys `grad` and `batchize_exp` read
from it.  Observations are opaque (an arbitrary type `Obs`); `supplement`
and `self_r` are optional keys, matching the membership tests in
`batchize_exp`. -/
structure Exp (Obs : Type) where
  a : ActionField
  obs : Obs
  obs_ : Obs
  r : List ℚ
  gamma : List ℚ
  supplement : Option Supplement
  self_r : Option (List ℚ)

/-- The dictionary built by `batchize_exp`; a `none` field is an absent key,
and reading an absent key raises a Python `KeyError`. -/
structure BatchDict (Obs : Type) where
  a : Option ActionMat
  s : Option (List Obs)
  s_ : Option (List Obs)
  r : Option (List ℚ)
  tot_r : Option (List ℚ)
  gamma : Option (List ℚ)
  supplement : Option (List Supplement)
  self_r : Option (List ℚ)

/-- Embedding of `AttGnnPPO.batchize_exp`.  An empty rollout list yields the
empty dictionary.  Otherwise the actions are hstacked (through the tuple
projection when the first action field is a tuple), the observations are
concatenated by the external `batchize` utility (modelled as the list of
observations), rewards and discounts are hstacked, total rewards are the
per-step reward sums, and the optional `supplement` and `self_r` keys are
propagated when the first step has them (the source then reads the key from
every step; a step missing the key makes the whole key unavailable, since
the comprehension raises). -/
def batchize_exp {Obs : Type} (batch : List (Exp Obs)) : BatchDict Obs :=
  match batch with
  | [] => ⟨none, none, none, none, none, none, none, none⟩
  | e0 :: _ =>
    let a := match e0.a with
      | .paired _ _ => hstackA (batch.map (fun e => e.a.mat))
      | .flat _ => hstackA (batch.map (fun e => e.a.mat))
    { a := some a
      s := some (batch.map (fun e => e.obs))
      s_ := some (batch.map (fun e => e.obs_))
      r := some ((batch.map (fun e => e.r)).flatten)
      tot_r := some (batch.map (fun e => e.r.sum))
      gamma := some ((batch.map (fun e => e.gamma)).flatten)
      supplement :=
        if e0.supplement.isSome then batch.mapM (fun (e : Exp Obs) => e.supplement) else none
      self_r :=
        if e0.self_r.isSome then
          (batch.mapM (fun (e : Exp Obs) => e.self_r)).map (fun l => l.flatten)
        else none }

/-- Embedding of `AttGnnPPO.supplement2torch`: flatten each stored
`att_prob` array and stack them into rows. -/
def supplement2torch (sup : List Supplement) : List (List ℚ) :=
  sup.map (fun s => s.att_prob)

/-- The torch boundary of the trainer: network forward passes, optimizer
steps and the transcendental functions, abstracted as functions exactly at
the calls the source makes.  `P` and `G` are the parameter spaces of the
policy network and the temporal GNN, `Emb` the embedding tensor type, `Obs`
the observation type.  `policyForward` returns the `(choice, cnt, att)`
triple with `att` already viewed as rows of length `neighbor_cnt + 1`;
`policyValue` returns the per-sample, per-node value matrix; the optimizer
steps abstract `backward` plus the two Adam steps of one inner epoch. -/
structure TorchEnv (P G Emb Obs : Type) where
  gnnForward : G → List Obs → Emb
  policyForward : P → Emb → List ℕ × List ℤ × List (List ℚ)
  policyValue : P → Emb → List (List ℚ)
  stepPolicy : P → P
  stepGnn : G → G
  rexp : ℚ → ℚ
  rlog : ℚ → ℚ
  per_graph_size : ℕ
  neighbor_cnt : ℕ

/-- The trainer state: the current and lagged copies of the policy and the
temporal GNN parameters, plus the numeric hyperparameters set by
`AttGnnPPO.__init__`. -/
structure AttGnnPPO (P G : Type) where
  policy : P
  old_policy : P
  temporal_gnn : G
  old_temporal_gnn : G
  gamma : ℚ
  K_epochs : ℕ
  eps_clip : ℚ

/-- Embedding of `AttGnnPPO.__init__`: the lagged copies are deep copies of
the freshly built networks (hence equal as parameter values), `K_epochs` is
4 and `eps_clip` is 0.2. -/
def init {P G : Type} (gammav : ℚ) (policy0 : P) (gnn0 : G) : AttGnnPPO P G :=
  { policy := policy0, old_policy := policy0,
    temporal_gnn := gnn0, old_temporal_gnn := gnn0,
    gamma := gammav, K_epochs := 4, eps_clip := 1 / 5 }

/-- Tensor indexing `row[i]` with the out-of-range default 0. -/
def catIndex (row : List ℚ) (i : ℕ) : ℚ := row.getD i 0

/-- Log-probability of action `a` under `torch.distributions.Categorical`
built from one (unnormalized) probability row: the row is normalized by its
sum and the log of the chosen entry is taken. -/
def catLogProbRow (rlog : ℚ → ℚ) (row : List ℚ) (a : ℕ) : ℚ :=
  rlog (catIndex row a / row.sum)

/-- Entropy of the categorical distribution of one row. -/
def catEntropyRow (rlog : ℚ → ℚ) (row : List ℚ) : ℚ :=
  - ((row.map (fun p => p / row.sum * rlog (p / row.sum))).sum)

/-- Tensor `.detach()` on a matrix: same values, gradient flow cut (the
embedding tracks values only, so this is the identity; it is kept as a
marker of where the source detaches). -/
def detach (x : List (List ℚ)) : List (List ℚ) := x

/-- Tensor `.detach()` on a vector. -/
def detach1 (x : List ℚ) : List ℚ := x

/-- Elementwise combination of two matrices. -/
def zipWith2D (f : ℚ → ℚ → ℚ) (a b : List (List ℚ)) : List (List ℚ) :=
  List.zipWith (List.zipWith f) a b

/-- Reshape a flat tensor into rows of width `g` (`reshape(-1, g)`). -/
def toRowsAux : ℕ → ℕ → List ℚ → List (List ℚ)
  | 0, _, _ => []
  | _, _, [] => []
  | fuel + 1, g, x :: xs => (x :: xs).take g :: toRowsAux fuel g ((x :: xs).drop g)

/-- Reshape a flat tensor into rows of width `g`. -/
def toRows (g : ℕ) (l : List ℚ) : List (List ℚ) := toRowsAux l.length g l

/-- Embedding of `torch.clamp(x, lo, hi)`. -/
def clampQ (x lo hi : ℚ) : ℚ := min (max x lo) hi

/-- Embedding of `nn.MSELoss()` with its default mean reduction: the mean of
the squared elementwise differences. -/
def mseLoss (pred target : List (List ℚ)) : ℚ :=
  let ds := (zipWith2D (fun p t => p - t) pred target).flatten
  (ds.map (fun d => d * d)).sum / ds.length

end PPO

namespace PPO

/-- Message of the Python KeyError raised by reading the key r from the
empty dictionary returned by `batchize_exp` for an empty rollout. -/
def keyErrR : String := "KeyError: r"

/-- KeyError message for the key gamma. -/
def keyErrGamma : String := "KeyError: gamma"

/-- KeyError message for the key s. -/
def keyErrS : String := "KeyError: s"

/-- KeyError message for the key s underscore. -/
def keyErrS2 : String := "KeyError: s_"

/-- KeyError message for the key a. -/
def keyErrA : String := "KeyError: a"

/-- KeyError message for the key supplement. -/
def keyErrSup : String := "KeyError: supplement"

/-- Reading a key from the batch dictionary: an absent key raises. -/
def getKey {α : Type} (field : Option α) (errMsg : String) : Except String α :=
  match field with
  | some v => Except.ok v
  | none => Except.error errMsg

/-- Embedding of `AttGnnPPO.act`: under `torch.no_grad`, forward the lagged
temporal GNN and the lagged policy on the observation, and return the choice,
the count, and the supplement holding the attention row and
`att_prob = log(att[0, choice])`, the lagged-policy log-probability of the
chosen actions at collection time. -/
def act {P G Emb Obs : Type} (env : TorchEnv P G Emb Obs) (m : AttGnnPPO P G)
    (obs : Obs) : List ℕ × List ℤ × Supplement :=
  let emb := env.gnnForward m.old_temporal_gnn [obs]
  let fwd := env.policyForward m.old_policy emb
  let choice := fwd.1
  let att := fwd.2.2
  (choice, fwd.2.1,
    { choice_att := att,
      att_prob := choice.map (fun c => env.rlog (catIndex (att.headD []) c)) })

/-- Diagnostic record of one inner epoch of `grad`: the tensors appearing in
the loss computation of that epoch. -/
structure EpochLog where
  action_logprobs : List ℚ
  old_logprobs_used : List ℚ
  ratios : List ℚ
  state_values : List (List ℚ)
  state_values_ : List (List ℚ)
  att_entropy : List ℚ
  advantages : List ℚ
  loss : List ℚ

/-- The loss computation of one inner epoch of `AttGnnPPO.grad`: forward the
current GNN and policy on `s`, the lagged GNN and the lagged value head on
`s_` (detached), compute the categorical log-probabilities and entropy, the
importance ratios against the detached stored log-probabilities, the
advantages, the clipped surrogate loss, the value regression loss and the
entropy bonus; returns the tensors of that epoch as a diagnostic record. -/
def epochLogOf {P G Emb Obs : Type} (env : TorchEnv P G Emb Obs)
    (s s_ : List Obs) (rewards gammaMat : List (List ℚ)) (old_actions : ActionMat)
    (old_logprobs : List ℚ) (m : AttGnnPPO P G) : EpochLog :=
    let ts_emb := env.gnnForward m.temporal_gnn s
    let ts_emb_ := env.gnnForward m.old_temporal_gnn s_
    let att := (env.policyForward m.policy ts_emb).2.2
    let action_logprobs :=
      List.zipWith (fun row a => catLogProbRow env.rlog row a.toNat)
        att old_actions.row0
    let att_entropy := att.map (catEntropyRow env.rlog)
    let state_values := env.policyValue m.policy ts_emb
    let state_values_ := detach (env.policyValue m.old_policy ts_emb_)
    let ratios :=
      List.zipWith (fun lp olp => env.rexp (lp - olp))
        action_logprobs (detach1 old_logprobs)
    let ret := zipWith2D (fun rw x => rw + x) rewards
      (zipWith2D (fun g v => g * v) gammaMat state_values_)
    let advantages :=
      (zipWith2D (fun x v => x - v) ret (detach state_values)).map List.sum
    let surr1 := List.zipWith (fun rt adv => rt * adv) ratios advantages
    let surr2 := List.zipWith
      (fun rt adv => clampQ rt (1 - m.eps_clip) (1 + m.eps_clip) * adv)
      ratios advantages
    let ploss := (List.zipWith min surr1 surr2).map (fun v => -v)
    let mloss := mseLoss state_values ret
    let loss := List.zipWith (fun pl ent => pl + mloss - 1 / 100 * ent) ploss att_entropy
    { action_logprobs := action_logprobs,
      old_logprobs_used := old_logprobs,
      ratios := ratios,
      state_values := state_values,
      state_values_ := state_values_,
      att_entropy := att_entropy,
      advantages := advantages,
      loss := loss }

/-- The parameter update of one inner epoch: `zero_grad`,
`loss.mean().backward()`, then one Adam step on the temporal GNN and one on
the policy (abstracted as the two step functions of the torch boundary). -/
def updateNets {P G Emb Obs : Type} (env : TorchEnv P G Emb Obs)
    (m : AttGnnPPO P G) : AttGnnPPO P G :=
  { m with temporal_gnn := env.stepGnn m.temporal_gnn,
           policy := env.stepPolicy m.policy }

/-- One iteration of the `for _ in range(self.K_epochs)` loop of `grad`:
compute the epoch loss from the current state, take the optimizer steps, and
append the epoch diagnostics. -/
def epochStep {P G Emb Obs : Type} (env : TorchEnv P G Emb Obs)
    (s s_ : List Obs) (rewards gammaMat : List (List ℚ)) (old_actions : ActionMat)
    (old_logprobs : List ℚ) :
    AttGnnPPO P G × List EpochLog → ℕ → AttGnnPPO P G × List EpochLog :=
  fun st _ =>
    (updateNets env st.1,
     st.2 ++ [epochLogOf env s s_ rewards gammaMat old_actions old_logprobs st.1])

/-- The final hard synchronization of `grad`: the two `load_state_dict`
calls copy the current parameter values into the lagged policy and the
lagged temporal GNN. -/
def syncPair {P G : Type} (x : AttGnnPPO P G × List EpochLog) :
    AttGnnPPO P G × List EpochLog :=
  ({ x.1 with old_policy := x.1.policy, old_temporal_gnn := x.1.temporal_gnn }, x.2)

/-- The computational core of `grad` once every key has been read from the
batch dictionary: reshape the rewards into per-graph rows
(`reshape(-1, per_graph_size)`), broadcast the cumulative discounts across
the graph dimension (`reshape(-1, 1).repeat(1, per_graph_size)`), flatten
the stored log-probabilities (`supplement2torch(...).reshape(-1)`), run the
`K_epochs` inner epochs, then hard-synchronize the lagged networks. -/
def gradCore {P G Emb Obs : Type} (env : TorchEnv P G Emb Obs) (m : AttGnnPPO P G)
    (rl gl : List ℚ) (sl s2l : List Obs) (aM : ActionMat) (sups : List Supplement) :
    AttGnnPPO P G × List EpochLog :=
  syncPair ((List.range m.K_epochs).foldl
    (epochStep env sl s2l (toRows env.per_graph_size rl)
      (gl.map (fun gv => List.replicate env.per_graph_size gv)) aM
      ((supplement2torch sups).flatten)) (m, []))

/-- Embedding of `AttGnnPPO.grad`: batchize the rollout, read the batched
tensors from the dictionary in source order (a missing key raises a
KeyError, modelled as `Except.error`), then run the epoch loop and the final
lagged-network synchronization of `gradCore`.  Returns the updated trainer
state together with the per-epoch diagnostics. -/
def grad {P G Emb Obs : Type} (env : TorchEnv P G Emb Obs) (m : AttGnnPPO P G)
    (batchRaw : List (Exp Obs)) :
    Except String (AttGnnPPO P G × List EpochLog) := do
  let batch := batchize_exp batchRaw
  let r ← getKey batch.r keyErrR
  let tot_gamma ← getKey batch.gamma keyErrGamma
  let s ← getKey batch.s keyErrS
  let s_ ← getKey batch.s_ keyErrS2
  let aMat ← getKey batch.a keyErrA
  let sups ← getKey batch.supplement keyErrSup
  pure (gradCore env m r tot_gamma s s_ aMat sups)

end PPO

namespace DataCenter

/-- The example manifest table URL: host part and a file name starting with
the vmtable prefix. -/
def urlTable : Url := [['h', 'o', 's', 't'], vmPref ++ ['t', 'a', 'b', 'l', 'e']]

/-- First partitioned cpu-readings URL of the example manifest. -/
def urlRead1 : Url := [['h', 'o', 's', 't'], readingsPref ++ ['-', '1']]

/-- Second partitioned cpu-readings URL of the example manifest. -/
def urlRead2 : Url := [['h', 'o', 's', 't'], readingsPref ++ ['-', '2']]

/-- Third partitioned cpu-readings URL of the example manifest. -/
def urlRead3 : Url := [['h', 'o', 's', 't'], readingsPref ++ ['-', '3']]

/-- The example manifest: one table URL and three reading URLs. -/
def manifest4 : List Url := [urlTable, urlRead1, urlRead2, urlRead3]

/-- Claim C7.  On the four-URL manifest the remaining-readings counter does
decrement from 4 to 1, but on a fresh run (force off, local archive not yet
present) the download phase enqueues no URL at all with the download
manager, because the source calls `add_uris` only inside the branch guarded
by the archive already existing; all four URLs are enqueued only when the
archive is already present. -/
theorem aria2p_download_fresh_run_enqueues_nothing :
    aria2p_download manifest4 false false = ([], 1) ∧
    aria2p_download manifest4 false true = (manifest4, 1) := by
  constructor <;> rfl

/-- Claim C2.  The clean phase only decompresses the archive (or warns when
it is missing): in neither case does it perform a write of the processed
table, because `_preprocess` is never invoked from `clean`; the
`writeCleanTable` effect occurs only in the unreachable `preprocess`. -/
theorem clean_phase_never_writes_clean_table :
    clean true = [CleanAction.superClean,
      CleanAction.unzipCopy vm_table_file unzip_vm_table_file] ∧
    clean false = [CleanAction.superClean, CleanAction.warnMissing vm_table_file] ∧
    (∀ rows : List RawRow,
      preprocess rows = [CleanAction.writeCleanTable clean_file (process_vm_table rows)]) :=
  ⟨rfl, rfl, fun _ => rfl⟩

end DataCenter

namespace PPO

/-- Claim C1.  Calling `grad` on an empty rollout batch is not a no-op: the
guard in `batchize_exp` returns the empty dictionary, and `grad` then
immediately reads the key r from it, which raises a `KeyError` instead of
returning. -/
theorem grad_empty_batch_raises {P G Emb Obs : Type} (env : TorchEnv P G Emb Obs)
    (m : AttGnnPPO P G) :
    grad env m ([] : List (Exp Obs)) = Except.error keyErrR := rfl

/-- Claim C10.  The action and the stored log-probability returned by `act`
are computed only from the lagged embedding network and lagged policy: the
result is invariant under any change of the current networks, and the stored
`att_prob` is exactly the log of the lagged attention row at the chosen
actions, i.e. the lagged policy log-probability at collection time. -/
theorem act_uses_only_lagged_networks {P G Emb Obs : Type}
    (env : TorchEnv P G Emb Obs) (m : AttGnnPPO P G) (obs : Obs) :
    (∀ p1 g1, act env { m with policy := p1, temporal_gnn := g1 } obs = act env m obs) ∧
    (act env m obs).2.2.att_prob =
      ((env.policyForward m.old_policy (env.gnnForward m.old_temporal_gnn [obs])).1).map
        (fun c => env.rlog (catIndex
          (((env.policyForward m.old_policy (env.gnnForward m.old_temporal_gnn [obs])).2.2).headD []) c)) :=
  ⟨fun _ _ => rfl, rfl⟩

end PPO

namespace DataCenter

/-- Invariant of the polling loop, proved for an arbitrary starting poll
index and sleep accumulator: when the loop exits, every strictly earlier
poll in the run was nonempty with some incomplete task, exactly five seconds
were slept per re-poll, and the exit either found an empty task list (break
without removal) or a nonempty all-complete task list, in which case exactly
those tasks were removed. -/
lemma check_loop_aux (polls : ℕ → List Download) :
    ∀ (fuel t0 s0 : ℕ) (res : PollResult),
      check_all_download_completed polls fuel t0 s0 = some res →
      t0 ≤ res.exitTime ∧
      (∀ t', t0 ≤ t' → t' < res.exitTime →
        polls t' ≠ [] ∧ (polls t').all (fun d => d.is_complete) = false) ∧
      res.sleptTotal = s0 + 5 * (res.exitTime - t0) ∧
      ((polls res.exitTime = [] ∧ res = .noPending res.exitTime res.sleptTotal) ∨
       (polls res.exitTime ≠ [] ∧ (polls res.exitTime).all (fun d => d.is_complete) = true ∧
        res = .finished (polls res.exitTime) res.exitTime res.sleptTotal)) := by
  intro fuel
  induction fuel with
  | zero => intro t0 s0 res h; cases h
  | succ n ih =>
    intro t0 s0 res h
    rw [check_all_download_completed] at h
    by_cases hemp : (polls t0).isEmpty
    · rw [if_pos hemp] at h
      have hres : res = .noPending t0 s0 := (Option.some.inj h).symm
      subst hres
      have hnil : polls t0 = [] := List.isEmpty_iff.mp hemp
      refine ⟨le_refl _, ?_, ?_, Or.inl ⟨hnil, rfl⟩⟩
      · intro t' h1 h2; exact absurd (lt_of_le_of_lt h1 h2) (lt_irrefl t0)
      · simp [PollResult.exitTime, PollResult.sleptTotal]
    · rw [if_neg hemp] at h
      by_cases hall : (polls t0).all (fun d => d.is_complete)
      · rw [if_pos hall] at h
        have hres : res = .finished (polls t0) t0 s0 := (Option.some.inj h).symm
        subst hres
        have hnil : polls t0 ≠ [] := fun hc => hemp (by simp [hc])
        refine ⟨le_refl _, ?_, ?_, Or.inr ⟨hnil, hall, rfl⟩⟩
        · intro t' h1 h2; exact absurd (lt_of_le_of_lt h1 h2) (lt_irrefl t0)
        · simp [PollResult.exitTime, PollResult.sleptTotal]
      · rw [if_neg hall] at h
        obtain ⟨hle, hmid, hslept, hexit⟩ := ih (t0 + 1) (s0 + 5) res h
        refine ⟨le_trans (Nat.le_succ t0) hle, ?_, ?_, hexit⟩
        · intro t' h1 h2
          rcases Nat.eq_or_lt_of_le h1 with heq | hlt
          · subst heq
            refine ⟨fun hc => hemp (by simp [hc]), ?_⟩
            exact Bool.eq_false_iff.mpr hall
          · exact hmid t' hlt h2
        · rw [hslept]; omega

/-- Claim C8.  When the polling loop of `_check_all_download_completed`
returns, every earlier poll saw a task list that was nonempty and contained
an incomplete task (the loop never exits while any task is incomplete), five
seconds were slept per re-poll, and at the exit poll either the task list
was empty, or every task was complete and precisely those completed task
records were removed before returning. -/
theorem check_all_download_completed_spec (polls : ℕ → List Download)
    (fuel : ℕ) (res : PollResult)
    (h : check_all_download_completed polls fuel 0 0 = some res) :
    (∀ t' < res.exitTime,
      polls t' ≠ [] ∧ (polls t').all (fun d => d.is_complete) = false) ∧
    res.sleptTotal = 5 * res.exitTime ∧
    ((polls res.exitTime = [] ∧ res = .noPending res.exitTime res.sleptTotal) ∨
     (polls res.exitTime ≠ [] ∧ (polls res.exitTime).all (fun d => d.is_complete) = true ∧
      res = .finished (polls res.exitTime) res.exitTime res.sleptTotal)) := by
  obtain ⟨_, hmid, hslept, hexit⟩ := check_loop_aux polls fuel 0 0 res h
  refine ⟨fun t' ht' => hmid t' (Nat.zero_le t') ht', ?_, hexit⟩
  simpa using hslept

/-- The example download-manager trace for the witness: the first poll sees
one incomplete task, later polls see it complete. -/
def pollsW : ℕ → List Download :=
  fun t => if t = 0 then [{ name := 0, is_complete := false }]
           else [{ name := 0, is_complete := true }]

/-- The poll result the example trace produces. -/
def resW : PollResult := PollResult.finished [{ name := 0, is_complete := true }] 1 5

/-- Witness for claim C8: running the loop on the example trace with fuel 3
exits at poll 1, having slept 5 seconds, removing the single completed
task. -/
theorem check_all_download_completed_spec_witness :
    (∀ t' < resW.exitTime,
      pollsW t' ≠ [] ∧ (pollsW t').all (fun d => d.is_complete) = false) ∧
    resW.sleptTotal = 5 * resW.exitTime ∧
    ((pollsW resW.exitTime = [] ∧ resW = .noPending resW.exitTime resW.sleptTotal) ∨
     (pollsW resW.exitTime ≠ [] ∧
      (pollsW resW.exitTime).all (fun d => d.is_complete) = true ∧
      resW = .finished (pollsW resW.exitTime) resW.exitTime resW.sleptTotal)) :=
  check_all_download_completed_spec pollsW 3 resW (by decide)

end DataCenter

namespace DataCenter

/-- The end-to-end example row of the spec: timestamps 900 and 12900 with
valid bucket columns. -/
def exampleRow900 : RawRow :=
  { vmid := "vm1", subscriptionid := "sub", deploymentid := "dep",
    vmcreated := .num 900, vmdeleted := .num 12900,
    maxcpu := "50", avgcpu := "20", p95maxcpu := "60", vmcategory := "delay",
    vmcorecountbucket := .num 2, vmmemorybucket := .num 4 }

/-- The cleaned row the example must produce: buckets 3 and 43, lifetime
40, retained because 43 is not beyond the horizon. -/
def exampleClean900 : CleanRow :=
  { vmid := "vm1", vmcreated := 3, vmdeleted := 43,
    vmcorecountbucket := 2, vmmemorybucket := 4, lifetime := 40 }

/-- Claim C6.  For every input table: every output row has a bucketed
deletion time of at most 43 and a lifetime column equal to the bucketed
deletion minus the bucketed creation; a coercible input row is retained
exactly when its bucketed deletion time is at most 43 (so bucket 44 is
excluded and bucket 43 retained); the output is sorted ascending by the
bucketed creation time; and the concrete input with timestamps 900 and
12900 buckets to 3 and 43 with lifetime 40 and is retained. -/
theorem process_vm_table_spec (rows : List RawRow) :
    (∀ o ∈ process_vm_table rows,
        o.vmdeleted ≤ 43 ∧ o.lifetime = o.vmdeleted - o.vmcreated) ∧
    (∀ r ∈ rows, ∀ v, coerceRow r = some v →
        (addLifetime v ∈ process_vm_table rows ↔ v.vmdeleted ≤ 43)) ∧
    List.Sorted byVmcreated (process_vm_table rows) ∧
    process_vm_table [exampleRow900] = [exampleClean900] := by
  refine ⟨?_, ?_, List.sorted_insertionSort byVmcreated _, by decide⟩
  · intro o ho
    have ho2 : o ∈ ((rows.filterMap coerceRow).filter
        (fun r => r.vmdeleted ≤ 43)).map addLifetime :=
      (List.perm_insertionSort byVmcreated _).mem_iff.mp ho
    obtain ⟨u, hu, hueq⟩ := List.mem_map.mp ho2
    have hkept := (List.mem_filter.mp hu).2
    subst hueq
    exact ⟨by simpa using hkept, rfl⟩
  · intro r hr v hv
    constructor
    · intro hmem
      have hm2 : addLifetime v ∈ ((rows.filterMap coerceRow).filter
          (fun r => r.vmdeleted ≤ 43)).map addLifetime :=
        (List.perm_insertionSort byVmcreated _).mem_iff.mp hmem
      obtain ⟨u, hu, heq⟩ := List.mem_map.mp hm2
      have hud := (List.mem_filter.mp hu).2
      have hfield : u.vmdeleted = v.vmdeleted := congrArg CleanRow.vmdeleted heq
      rw [← hfield]
      simpa using hud
    · intro hle
      have h1 : v ∈ rows.filterMap coerceRow := List.mem_filterMap.mpr ⟨r, hr, hv⟩
      have h2 : v ∈ (rows.filterMap coerceRow).filter (fun r => r.vmdeleted ≤ 43) :=
        List.mem_filter.mpr ⟨h1, by simpa using hle⟩
      exact (List.perm_insertionSort byVmcreated _).mem_iff.mpr
        (List.mem_map_of_mem addLifetime h2)

/-- Witness for claim C6, instantiated at the spec's end-to-end example
table. -/
theorem process_vm_table_spec_witness :
    (∀ o ∈ process_vm_table [exampleRow900],
        o.vmdeleted ≤ 43 ∧ o.lifetime = o.vmdeleted - o.vmcreated) ∧
    (∀ r ∈ [exampleRow900], ∀ v, coerceRow r = some v →
        (addLifetime v ∈ process_vm_table [exampleRow900] ↔ v.vmdeleted ≤ 43)) ∧
    List.Sorted byVmcreated (process_vm_table [exampleRow900]) ∧
    process_vm_table [exampleRow900] = [exampleClean900] :=
  process_vm_table_spec [exampleRow900]

/-- Claim C9.  A row in which any of the four numeric columns fails the
numeric coercion is dropped, and the rest of the table is processed exactly
as if that row were absent; nothing is raised (the embedded pipeline is a
total function, mirroring coercion of errors plus row dropping). -/
theorem process_vm_table_drops_offending_row (pre suf : List RawRow) (bad : RawRow)
    (h : toNumeric bad.vmcreated = none ∨ toNumeric bad.vmdeleted = none ∨
         toNumeric bad.vmcorecountbucket = none ∨ toNumeric bad.vmmemorybucket = none) :
    process_vm_table (pre ++ bad :: suf) = process_vm_table (pre ++ suf) := by
  have hb : coerceRow bad = none := by
    rcases h1 : toNumeric bad.vmcreated with _ | c <;>
      rcases h2 : toNumeric bad.vmdeleted with _ | d <;>
      rcases h3 : toNumeric bad.vmcorecountbucket with _ | cb <;>
      rcases h4 : toNumeric bad.vmmemorybucket with _ | mb <;>
      simp [coerceRow, h1, h2, h3, h4] at h ⊢
  simp only [process_vm_table]
  rw [List.filterMap_append, List.filterMap_append, List.filterMap_cons_none hb]

/-- The non-numeric cell content of the example offending row. -/
def strBadCell : String := "NotANumber"

/-- An example offending row: its core-count bucket is non-numeric. -/
def badRowW : RawRow :=
  { vmid := "vm2", subscriptionid := "sub", deploymentid := "dep",
    vmcreated := .num 300, vmdeleted := .num 600,
    maxcpu := "10", avgcpu := "5", p95maxcpu := "12", vmcategory := "delay",
    vmcorecountbucket := .nonNum strBadCell, vmmemorybucket := .num 8 }

/-- A second well-formed example row. -/
def goodRowW : RawRow :=
  { vmid := "vm3", subscriptionid := "sub", deploymentid := "dep",
    vmcreated := .num 0, vmdeleted := .num 300,
    maxcpu := "10", avgcpu := "5", p95maxcpu := "12", vmcategory := "delay",
    vmcorecountbucket := .num 1, vmmemorybucket := .num 2 }

/-- Witness for claim C9: dropping the row with the non-numeric bucket cell
from between two good rows gives the same output as processing the two good
rows alone. -/
theorem process_vm_table_drops_offending_row_witness :
    process_vm_table ([exampleRow900] ++ badRowW :: [goodRowW]) =
      process_vm_table ([exampleRow900] ++ [goodRowW]) :=
  process_vm_table_drops_offending_row [exampleRow900] [goodRowW] badRowW
    (Or.inr (Or.inr (Or.inl rfl)))

end DataCenter

namespace PPO

section GradLemmas

variable {P G Emb Obs : Type} (env : TorchEnv P G Emb Obs)

lemma updateNets_iterate_policy (n : ℕ) (m : AttGnnPPO P G) :
    ((updateNets env)^[n] m).policy = env.stepPolicy^[n] m.policy := by
  induction n generalizing m with
  | zero => rfl
  | succ k ih =>
    rw [Function.iterate_succ_apply, Function.iterate_succ_apply, ih]
    rfl

lemma updateNets_iterate_gnn (n : ℕ) (m : AttGnnPPO P G) :
    ((updateNets env)^[n] m).temporal_gnn = env.stepGnn^[n] m.temporal_gnn := by
  induction n generalizing m with
  | zero => rfl
  | succ k ih =>
    rw [Function.iterate_succ_apply, Function.iterate_succ_apply, ih]
    rfl

lemma updateNets_iterate_old (n : ℕ) (m : AttGnnPPO P G) :
    ((updateNets env)^[n] m).old_policy = m.old_policy ∧
    ((updateNets env)^[n] m).old_temporal_gnn = m.old_temporal_gnn ∧
    ((updateNets env)^[n] m).eps_clip = m.eps_clip := by
  induction n generalizing m with
  | zero => exact ⟨rfl, rfl, rfl⟩
  | succ k ih =>
    rw [Function.iterate_succ_apply]
    exact ih (updateNets env m)

lemma foldl_epochStep_fst (s s_ : List Obs) (rw gm : List (List ℚ))
    (am : ActionMat) (olp : List ℚ) (l : List ℕ)
    (m : AttGnnPPO P G) (logs : List EpochLog) :
    (l.foldl (epochStep env s s_ rw gm am olp) (m, logs)).1 =
      (updateNets env)^[l.length] m := by
  induction l generalizing m logs with
  | nil => rfl
  | cons a l ih =>
    rw [List.foldl_cons, List.length_cons, Function.iterate_succ_apply]
    exact ih (updateNets env m) _

lemma foldl_epochStep_snd_length (s s_ : List Obs) (rw gm : List (List ℚ))
    (am : ActionMat) (olp : List ℚ) (l : List ℕ)
    (m : AttGnnPPO P G) (logs : List EpochLog) :
    (l.foldl (epochStep env s s_ rw gm am olp) (m, logs)).2.length =
      logs.length + l.length := by
  induction l generalizing m logs with
  | nil => rfl
  | cons a l ih =>
    rw [List.foldl_cons, List.length_cons]
    have := ih (updateNets env m)
      (logs ++ [epochLogOf env s s_ rw gm am olp m])
    rw [epochStep] at *
    simp only [List.length_append, List.length_cons, List.length_nil] at this ⊢
    omega

lemma foldl_epochStep_snd_mem (s s_ : List Obs) (rw gm : List (List ℚ))
    (am : ActionMat) (olp : List ℚ) (Q : EpochLog → Prop) (l : List ℕ)
    (m : AttGnnPPO P G) (logs : List EpochLog)
    (hlogs : ∀ b ∈ logs, Q b)
    (hw : ∀ k, Q (epochLogOf env s s_ rw gm am olp ((updateNets env)^[k] m))) :
    ∀ b ∈ (l.foldl (epochStep env s s_ rw gm am olp) (m, logs)).2, Q b := by
  induction l generalizing m logs with
  | nil => exact hlogs
  | cons a l ih =>
    rw [List.foldl_cons]
    refine ih (updateNets env m) _ ?_ ?_
    · intro b hb
      rcases List.mem_append.mp hb with hb | hb
      · exact hlogs b hb
      · rcases List.mem_singleton.mp hb with rfl
        exact hw 0
    · intro k
      have := hw (k + 1)
      rwa [Function.iterate_succ_apply] at this

lemma getKey_bind_ok {α β : Type} (o : Option α) (msg : String)
    (f : α → Except String β) (out : β)
    (h : (getKey o msg >>= f) = Except.ok out) :
    ∃ v, o = some v ∧ f v = Except.ok out := by
  rcases o with _ | v
  · simp only [getKey, bind, Except.bind] at h
    exact Except.noConfusion h
  · exact ⟨v, rfl, by simpa only [getKey, bind, Except.bind] using h⟩

/-- Inversion of a successful `grad` call: every key read succeeded, and the
result is the epoch fold followed by the hard synchronization of the lagged
networks. -/
lemma grad_ok_inversion (m : AttGnnPPO P G) (batchRaw : List (Exp Obs))
    (m' : AttGnnPPO P G) (logs : List EpochLog)
    (h : grad env m batchRaw = Except.ok (m', logs)) :
    ∃ rl gl sl s2l aM sups,
      (batchize_exp batchRaw).r = some rl ∧
      (batchize_exp batchRaw).gamma = some gl ∧
      (batchize_exp batchRaw).s = some sl ∧
      (batchize_exp batchRaw).s_ = some s2l ∧
      (batchize_exp batchRaw).a = some aM ∧
      (batchize_exp batchRaw).supplement = some sups ∧
      m' = (gradCore env m rl gl sl s2l aM sups).1 ∧
      logs = (gradCore env m rl gl sl s2l aM sups).2 := by
  unfold grad at h
  obtain ⟨rl, hr, h⟩ := getKey_bind_ok _ _ _ _ h
  obtain ⟨gl, hg, h⟩ := getKey_bind_ok _ _ _ _ h
  obtain ⟨sl, hs, h⟩ := getKey_bind_ok _ _ _ _ h
  obtain ⟨s2l, hs2, h⟩ := getKey_bind_ok _ _ _ _ h
  obtain ⟨aM, ha, h⟩ := getKey_bind_ok _ _ _ _ h
  obtain ⟨sups, hsup, h⟩ := getKey_bind_ok _ _ _ _ h
  refine ⟨rl, gl, sl, s2l, aM, sups, hr, hg, hs, hs2, ha, hsup, ?_⟩
  simp only [pure, Except.pure, Except.ok.injEq] at h
  exact ⟨congrArg Prod.fst h.symm, congrArg Prod.snd h.symm⟩

end GradLemmas

end PPO


namespace PPO

section GradCoreLemmas

variable {P G Emb Obs : Type} (env : TorchEnv P G Emb Obs) (m : AttGnnPPO P G)
variable (rl gl : List ℚ) (sl s2l : List Obs) (aM : ActionMat) (sups : List Supplement)

lemma gradCore_fst_policy :
    (gradCore env m rl gl sl s2l aM sups).1.policy =
      env.stepPolicy^[m.K_epochs] m.policy := by
  unfold gradCore syncPair
  dsimp only
  rw [foldl_epochStep_fst, updateNets_iterate_policy, List.length_range]

lemma gradCore_fst_gnn :
    (gradCore env m rl gl sl s2l aM sups).1.temporal_gnn =
      env.stepGnn^[m.K_epochs] m.temporal_gnn := by
  unfold gradCore syncPair
  dsimp only
  rw [foldl_epochStep_fst, updateNets_iterate_gnn, List.length_range]

lemma gradCore_synced :
    (gradCore env m rl gl sl s2l aM sups).1.old_policy =
      (gradCore env m rl gl sl s2l aM sups).1.policy ∧
    (gradCore env m rl gl sl s2l aM sups).1.old_temporal_gnn =
      (gradCore env m rl gl sl s2l aM sups).1.temporal_gnn :=
  ⟨rfl, rfl⟩

lemma gradCore_snd_length :
    (gradCore env m rl gl sl s2l aM sups).2.length = m.K_epochs := by
  unfold gradCore syncPair
  dsimp only
  rw [foldl_epochStep_snd_length]
  simp

lemma gradCore_snd_mem (Q : EpochLog → Prop)
    (hw : ∀ k, Q (epochLogOf env sl s2l (toRows env.per_graph_size rl)
      (gl.map (fun gv => List.replicate env.per_graph_size gv)) aM
      ((supplement2torch sups).flatten) ((updateNets env)^[k] m))) :
    ∀ b ∈ (gradCore env m rl gl sl s2l aM sups).2, Q b := by
  unfold gradCore syncPair
  dsimp only
  exact foldl_epochStep_snd_mem env _ _ _ _ _ _ Q _ m [] (by intro b hb; cases hb) hw

end GradCoreLemmas

/-- Claim C3.  On any batch for which `grad` succeeds (in particular any
well-formed non-empty batch) starting from an initialized trainer, exactly
`K_epochs = 4` inner optimizer steps are taken on both networks, and
afterwards the lagged policy and lagged temporal GNN parameters equal the
current ones exactly (the hard copy of `load_state_dict`, not an
interpolation: the final current parameters are exactly the 4-fold iterate
of the optimizer step, and the lagged ones equal precisely those values). -/
theorem grad_runs_four_epochs_then_hard_sync {P G Emb Obs : Type}
    (env : TorchEnv P G Emb Obs) (gammav : ℚ) (p0 : P) (g0 : G)
    (batch : List (Exp Obs)) (m' : AttGnnPPO P G) (logs : List EpochLog)
    (h : grad env (init gammav p0 g0) batch = Except.ok (m', logs)) :
    logs.length = 4 ∧
    m'.old_policy = m'.policy ∧
    m'.old_temporal_gnn = m'.temporal_gnn ∧
    m'.policy = env.stepPolicy^[4] p0 ∧
    m'.temporal_gnn = env.stepGnn^[4] g0 := by
  obtain ⟨rl, gl, sl, s2l, aM, sups, hr, hg, hs, hs2, ha, hsup, hm', hlogs⟩ :=
    grad_ok_inversion env _ batch m' logs h
  subst hlogs
  subst hm'
  refine ⟨gradCore_snd_length env _ rl gl sl s2l aM sups, rfl, rfl, ?_, ?_⟩
  · rw [gradCore_fst_policy]
    rfl
  · rw [gradCore_fst_gnn]
    rfl

/-- The concrete torch boundary used by the PPO witnesses: one-node graphs,
identity transcendentals, and counting optimizer steps. -/
def envW : TorchEnv ℕ ℕ ℕ ℕ :=
  { gnnForward := fun g _ => g,
    policyForward := fun _ _ => ([0], [1], [[1 / 2, 1 / 2]]),
    policyValue := fun _ _ => [[1 / 3]],
    stepPolicy := fun p => p + 1,
    stepGnn := fun g => g + 2,
    rexp := fun x => x,
    rlog := fun x => x,
    per_graph_size := 1,
    neighbor_cnt := 1 }

/-- The stored supplement of the witness rollout step. -/
def supW : Supplement := { choice_att := [[1 / 2, 1 / 2]], att_prob := [1 / 2] }

/-- The single rollout step of the witness batch. -/
def expW : Exp ℕ :=
  { a := .flat { row0 := [0], row1 := [1] },
    obs := 0, obs_ := 1, r := [1], gamma := [1 / 2],
    supplement := some supW, self_r := none }

/-- The witness batch: one step. -/
def batchW : List (Exp ℕ) := [expW]

/-- The initialized witness trainer. -/
def initW : AttGnnPPO ℕ ℕ := init (9 / 10) 0 0

/-- The result of running `grad` on the witness batch. -/
def gradPairW : AttGnnPPO ℕ ℕ × List EpochLog :=
  (grad envW initW batchW).toOption.getD (initW, [])

/-- Witness for claim C3: on the concrete one-step batch, `grad` succeeds,
performs four optimizer steps on each network, and hard-copies the lagged
parameters. -/
theorem grad_runs_four_epochs_then_hard_sync_witness :
    gradPairW.2.length = 4 ∧
    gradPairW.1.old_policy = gradPairW.1.policy ∧
    gradPairW.1.old_temporal_gnn = gradPairW.1.temporal_gnn ∧
    gradPairW.1.policy = envW.stepPolicy^[4] 0 ∧
    gradPairW.1.temporal_gnn = envW.stepGnn^[4] 0 :=
  grad_runs_four_epochs_then_hard_sync envW (9 / 10) 0 0 batchW
    gradPairW.1 gradPairW.2 rfl

end PPO

namespace PPO

/-- Claim C5.  In every inner epoch of a successful `grad` call, the
importance ratio is the exponential of the current log-probability minus the
stored one, and the stored log-probabilities used are exactly the flattened
`att_prob` values captured in the rollout supplement at collection time —
the same stored vector in all epochs, never recomputed. -/
theorem grad_ratio_uses_stored_logprobs {P G Emb Obs : Type}
    (env : TorchEnv P G Emb Obs) (m : AttGnnPPO P G) (batch : List (Exp Obs))
    (m' : AttGnnPPO P G) (logs : List EpochLog) (sups : List Supplement)
    (h : grad env m batch = Except.ok (m', logs))
    (hsup : (batchize_exp batch).supplement = some sups) :
    ∀ log ∈ logs,
      log.old_logprobs_used = (supplement2torch sups).flatten ∧
      log.ratios = List.zipWith (fun lp olp => env.rexp (lp - olp))
        log.action_logprobs log.old_logprobs_used := by
  obtain ⟨rl, gl, sl, s2l, aM, sups2, hr, hg, hs, hs2, ha, hsup2, hm', hlogs⟩ :=
    grad_ok_inversion env m batch m' logs h
  rw [hsup] at hsup2
  cases Option.some.inj hsup2
  subst hlogs
  exact gradCore_snd_mem env m rl gl sl s2l aM sups _ (fun k => ⟨rfl, rfl⟩)

/-- A default epoch log, used only as the fallback of `headD`. -/
def logDfltW : EpochLog :=
  { action_logprobs := [], old_logprobs_used := [], ratios := [],
    state_values := [], state_values_ := [], att_entropy := [],
    advantages := [], loss := [] }

/-- The first epoch log of the witness run. -/
def logW : EpochLog := gradPairW.2.headD logDfltW

/-- The first epoch log is a member of the witness run's log list. -/
lemma logW_mem : logW ∈ gradPairW.2 := List.mem_cons_self _ _

/-- Witness for claim C5: the first epoch of the concrete run uses the
stored supplement log-probabilities and the exponential-of-difference
ratio. -/
theorem grad_ratio_uses_stored_logprobs_witness :
    logW ∈ gradPairW.2 ∧
    logW.old_logprobs_used = (supplement2torch [supW]).flatten ∧
    logW.ratios = List.zipWith (fun lp olp => envW.rexp (lp - olp))
      logW.action_logprobs logW.old_logprobs_used :=
  ⟨logW_mem,
   grad_ratio_uses_stored_logprobs envW initW batchW gradPairW.1 gradPairW.2
     [supW] rfl rfl logW logW_mem⟩

end PPO

namespace PPO

/-- Three-list pointwise combination, used to state the specification's loss
formula independently of the zip structure of the code embedding. -/
def zipWith3 {α β γ δ : Type} (f : α → β → γ → δ) : List α → List β → List γ → List δ
  | a :: as, b :: bs, c :: cs => f a b c :: zipWith3 f as bs cs
  | _, _, _ => []

/-- Four-list pointwise combination. -/
def zipWith4 {α β γ δ ε : Type} (f : α → β → γ → δ → ε) :
    List α → List β → List γ → List δ → List ε
  | a :: as, b :: bs, c :: cs, d :: ds => f a b c d :: zipWith4 f as bs cs ds
  | _, _, _, _ => []

/-- The clip operation as the specification words it:
`clip(ratio, 1-eps, 1+eps)` restricted into the interval. -/
def clipSpec (x lo hi : ℚ) : ℚ := max lo (min x hi)

/-- The advantage as the specification words it, per sample:
`A = reward + discount * lagged-value(next) - current-value`, summed over
the graph nodes of the sample. -/
def advantageSpec (rewards gammaMat sv_ sv : List (List ℚ)) : List ℚ :=
  zipWith4
    (fun rrow grow vrow_ vrow =>
      (zipWith4 (fun r g v_ v => r + g * v_ - v) rrow grow vrow_ vrow).sum)
    rewards gammaMat sv_ sv

/-- The value-regression target as the specification words it:
`reward + discount * lagged-value(next)`. -/
def valueTargetSpec (rewards gammaMat sv_ : List (List ℚ)) : List (List ℚ) :=
  zipWith3 (fun rrow grow vrow_ => zipWith3 (fun r g v_ => r + g * v_) rrow grow vrow_)
    rewards gammaMat sv_

/-- Mean squared error as the specification words it: the mean of the
squared differences. -/
def mseSpec (pred target : List (List ℚ)) : ℚ :=
  ((zipWith2D (fun p t => (p - t) * (p - t)) pred target).flatten).sum /
    ((zipWith2D (fun p t => (p - t) * (p - t)) pred target).flatten).length

/-- The per-sample loss vector as the specification words it:
`-min(ratio * A, clip(ratio, 1-eps, 1+eps) * A) + MSE(value, target) -
0.01 * entropy`. -/
def lossSpec (eps : ℚ) (rewards gammaMat sv sv_ : List (List ℚ))
    (ratios entropy : List ℚ) : List ℚ :=
  zipWith3
    (fun rt a ent =>
      -(min (rt * a) (clipSpec rt (1 - eps) (1 + eps) * a)) +
        mseSpec sv (valueTargetSpec rewards gammaMat sv_) - 1 / 100 * ent)
    ratios (advantageSpec rewards gammaMat sv_ sv) entropy

section LossEquivalence

lemma clampQ_eq_clipSpec (x lo hi : ℚ) (h : lo ≤ hi) :
    clampQ x lo hi = clipSpec x lo hi := by
  unfold clampQ clipSpec
  rcases le_total x lo with h1 | h1
  · have h2 : min x hi ≤ lo := le_trans (min_le_left x hi) h1
    rw [max_eq_right h1, min_eq_left h, max_eq_left h2]
  · rw [max_eq_left h1, max_eq_right (le_min h1 h)]

lemma inner_target_eq (r g v : List ℚ) :
    zipWith3 (fun a b c => a + b * c) r g v =
      List.zipWith (fun a x => a + x) r (List.zipWith (fun b c => b * c) g v) := by
  induction r generalizing g v with
  | nil => rfl
  | cons a r ih =>
    cases g with
    | nil => rfl
    | cons b g =>
      cases v with
      | nil => rfl
      | cons c v => simp [zipWith3, ih]

lemma inner_adv_eq (r g v2 v : List ℚ) :
    zipWith4 (fun a b c d => a + b * c - d) r g v2 v =
      List.zipWith (fun x d => x - d)
        (List.zipWith (fun a y => a + y) r (List.zipWith (fun b c => b * c) g v2)) v := by
  induction r generalizing g v2 v with
  | nil => rfl
  | cons a r ih =>
    cases g with
    | nil => rfl
    | cons b g =>
      cases v2 with
      | nil => rfl
      | cons c v2 =>
        cases v with
        | nil => rfl
        | cons d v => simp [zipWith4, ih]

lemma target_eq (rw gm sv_ : List (List ℚ)) :
    valueTargetSpec rw gm sv_ =
      zipWith2D (fun r x => r + x) rw (zipWith2D (fun g v => g * v) gm sv_) := by
  induction rw generalizing gm sv_ with
  | nil => rfl
  | cons rrow rws ih =>
    cases gm with
    | nil => rfl
    | cons grow gms =>
      cases sv_ with
      | nil => rfl
      | cons vrow svs =>
        exact congrArg₂ List.cons (inner_target_eq rrow grow vrow) (ih gms svs)

lemma adv_eq (rw gm sv_ sv : List (List ℚ)) :
    advantageSpec rw gm sv_ sv =
      (zipWith2D (fun x v => x - v)
        (zipWith2D (fun r x => r + x) rw (zipWith2D (fun g v => g * v) gm sv_))
        sv).map List.sum := by
  induction rw generalizing gm sv_ sv with
  | nil => rfl
  | cons rrow rws ih =>
    cases gm with
    | nil => rfl
    | cons grow gms =>
      cases sv_ with
      | nil => rfl
      | cons vrow2 svs2 =>
        cases sv with
        | nil => rfl
        | cons vrow svs =>
          exact congrArg₂ List.cons
            (congrArg List.sum (inner_adv_eq rrow grow vrow2 vrow)) (ih gms svs2 svs)

lemma flatten_map_sq (A B : List (List ℚ)) :
    ((zipWith2D (fun p t => p - t) A B).flatten).map (fun d => d * d) =
      (zipWith2D (fun p t => (p - t) * (p - t)) A B).flatten := by
  induction A generalizing B with
  | nil => rfl
  | cons a A ih =>
    cases B with
    | nil => rfl
    | cons b B =>
      simp only [zipWith2D, List.zipWith, List.flatten_cons, List.map_append,
        List.map_zipWith] at *
      exact congrArg _ (ih B)

lemma mse_eq (pred target : List (List ℚ)) :
    mseLoss pred target = mseSpec pred target := by
  unfold mseLoss mseSpec
  rw [← flatten_map_sq]
  rw [List.length_map]

end LossEquivalence

end PPO

namespace PPO

lemma loss_pointwise (eps C k : ℚ) (heps : 1 - eps ≤ 1 + eps) (rts A ent : List ℚ) :
    List.zipWith (fun pl e => pl + C - k * e)
      ((List.zipWith min
        (List.zipWith (fun rt adv => rt * adv) rts A)
        (List.zipWith (fun rt adv => clampQ rt (1 - eps) (1 + eps) * adv) rts A)).map
        (fun v => -v)) ent =
    zipWith3
      (fun rt a e => -(min (rt * a) (clipSpec rt (1 - eps) (1 + eps) * a)) + C - k * e)
      rts A ent := by
  induction rts generalizing A ent with
  | nil => rfl
  | cons rt rts ih =>
    cases A with
    | nil => rfl
    | cons a A =>
      cases ent with
      | nil => rfl
      | cons e ent =>
        simp only [List.zipWith, List.map, zipWith3]
        refine congrArg₂ List.cons ?_ (ih A ent)
        rw [clampQ_eq_clipSpec _ _ _ heps]

lemma epochLogOf_props {P G Emb Obs : Type} (env : TorchEnv P G Emb Obs)
    (sl s2l : List Obs) (rewards gammaMat : List (List ℚ)) (aM : ActionMat)
    (olp : List ℚ) (m : AttGnnPPO P G) (hm : m.eps_clip = 1 / 5) :
    (epochLogOf env sl s2l rewards gammaMat aM olp m).loss =
      lossSpec (1 / 5) rewards gammaMat
        (epochLogOf env sl s2l rewards gammaMat aM olp m).state_values
        (epochLogOf env sl s2l rewards gammaMat aM olp m).state_values_
        (epochLogOf env sl s2l rewards gammaMat aM olp m).ratios
        (epochLogOf env sl s2l rewards gammaMat aM olp m).att_entropy ∧
    (epochLogOf env sl s2l rewards gammaMat aM olp m).state_values_ =
      env.policyValue m.old_policy (env.gnnForward m.old_temporal_gnn s2l) := by
  refine ⟨?_, rfl⟩
  dsimp only [epochLogOf, detach, detach1]
  rw [hm]
  rw [loss_pointwise _ _ _ (by norm_num)]
  unfold lossSpec
  simp only [← adv_eq]
  simp only [mse_eq]
  simp only [← target_eq]

/-- Claim C4.  In every inner epoch of a successful `grad` call on an
initialized trainer, the per-sample loss vector equals the specification
formula `-min(ratio * A, clip(ratio, 1 - eps, 1 + eps) * A) +
MSE(value(s), reward + gamma * lagged-value(next)) - 0.01 * entropy` with
`eps = 1/5`, where the advantage `A` is `reward + gamma * lagged-value(next)
- value(s)` summed over the sample's graph nodes; moreover the lagged value
of the next state used in every epoch is computed by the lagged value head
on the lagged GNN embedding of the batched next observations (the values
the source detaches from the gradient). -/
theorem grad_epoch_loss_formula {P G Emb Obs : Type}
    (env : TorchEnv P G Emb Obs) (gammav : ℚ) (p0 : P) (g0 : G)
    (batch : List (Exp Obs)) (m' : AttGnnPPO P G) (logs : List EpochLog)
    (rl gl : List ℚ) (s2l : List Obs)
    (h : grad env (init gammav p0 g0) batch = Except.ok (m', logs))
    (hr : (batchize_exp batch).r = some rl)
    (hg : (batchize_exp batch).gamma = some gl)
    (hs2 : (batchize_exp batch).s_ = some s2l) :
    ∀ log ∈ logs,
      log.loss = lossSpec (1 / 5) (toRows env.per_graph_size rl)
        (gl.map (fun gv => List.replicate env.per_graph_size gv))
        log.state_values log.state_values_ log.ratios log.att_entropy ∧
      log.state_values_ = env.policyValue p0 (env.gnnForward g0 s2l) := by
  obtain ⟨rl2, gl2, sl2, s2l2, aM, sups, hr2, hg2, hs2b, hs2c, ha, hsup, hm', hlogs⟩ :=
    grad_ok_inversion env _ batch m' logs h
  rw [hr] at hr2
  cases Option.some.inj hr2
  rw [hg] at hg2
  cases Option.some.inj hg2
  rw [hs2] at hs2c
  cases Option.some.inj hs2c
  subst hlogs
  refine gradCore_snd_mem env _ rl gl sl2 s2l aM sups _ ?_
  intro k
  have hold := updateNets_iterate_old env k (init gammav p0 g0)
  have heps : ((updateNets env)^[k] (init gammav p0 g0)).eps_clip = 1 / 5 := by
    rw [hold.2.2]
    rfl
  have hp := epochLogOf_props env sl2 s2l (toRows env.per_graph_size rl)
    (gl.map (fun gv => List.replicate env.per_graph_size gv)) aM
    ((supplement2torch sups).flatten) _ heps
  refine ⟨hp.1, ?_⟩
  rw [hp.2, hold.1, hold.2.1]
  rfl

/-- Witness for claim C4, instantiated at the first epoch log of the
concrete one-step run. -/
theorem grad_epoch_loss_formula_witness :
    logW ∈ gradPairW.2 ∧
    logW.loss = lossSpec (1 / 5) (toRows envW.per_graph_size [1])
      ([1 / 2].map (fun gv => List.replicate envW.per_graph_size gv))
      logW.state_values logW.state_values_ logW.ratios logW.att_entropy ∧
    logW.state_values_ = envW.policyValue 0 (envW.gnnForward 0 [1]) :=
  ⟨logW_mem,
   grad_epoch_loss_formula envW (9 / 10) 0 0 batchW gradPairW.1 gradPairW.2
     [1] [1 / 2] [1] rfl rfl rfl rfl logW logW_mem⟩

end PPO
